import Mathlib

/-!
Verification of the core of the goes event-sourcing framework: the MongoDB
event store (insert-time version validation and aggregate state updates),
the aggregate repository (save and fetch-at-version), the projection job
(events-for-target query construction and the de-duplicating query cache),
and the projection schedules together with the subscribe pipeline.

Go values are embedded as follows: UUIDs become natural numbers with 0
playing the role of uuid.Nil; wall-clock times become integer nanosecond
values with 0 playing the role of the zero time; Go int versions become
integers; event channels become lists; context cancellation becomes an
explicit optional budget of elements forwarded before the context is done.
-/

/-- An event as stored and transported by goes (the mongostore `entry`
document): an id, a name, a time in unix nanoseconds and the aggregate
triple (name, id, version). The opaque payload is irrelevant to every claim
and is omitted. A UUID is a number with 0 standing for uuid.Nil. -/
structure Event where
  id : Nat
  name : String
  time : Int
  aggregateName : String
  aggregateID : Nat
  aggregateVersion : Int
deriving DecidableEq, Repr

/-- An event carries an aggregate triple when its aggregate name and id are
set; the data-model invariant makes the triple all-or-nothing, and the code
under verification tests exactly these two fields. -/
def hasAggregate (e : Event) : Bool :=
  !(e.aggregateName == "") && !(e.aggregateID == 0)

namespace Mongostore

/-- Mirrors the mongostore `VersionError`. -/
structure VersionError where
  aggregateName : String
  aggregateID : Nat
  currentVersion : Int
  event : Event
deriving DecidableEq, Repr

/-- Mirrors the mongostore `state`: one document of the states collection. -/
structure State where
  aggregateName : String
  aggregateID : Nat
  version : Int
deriving DecidableEq, Repr

instance : Inhabited State := ⟨⟨"", 0, 0⟩⟩

/-- The store contents: the events collection and the states collection. -/
structure Store where
  entries : List Event
  states : List State
deriving DecidableEq, Repr

/-- Mirrors `s.states.FindOne` keyed by (aggregateName, aggregateId). -/
def findState (states : List State) (name : String) (id : Nat) : Option State :=
  states.find? fun st => st.aggregateName == name && st.aggregateID == id

/-- Mirrors `Store.validateVersion`: an empty batch, or a batch whose first
event carries no aggregate triple, is not validated; otherwise the version
stored for the first event's aggregate (0 when the state document is
missing) must be smaller than the first event's version. Only the first
event of the batch is inspected. -/
def validateVersion (states : List State) (events : List Event) :
    Except VersionError State :=
  match events with
  | [] => .ok default
  | evt :: _ =>
    if evt.aggregateName == "" || evt.aggregateID == 0 then .ok default
    else
      let st := (findState states evt.aggregateName evt.aggregateID).getD
        ⟨evt.aggregateName, evt.aggregateID, 0⟩
      if st.version ≥ evt.aggregateVersion then
        .error ⟨evt.aggregateName, evt.aggregateID, st.version, evt⟩
      else .ok st

/-- Mirrors `ReplaceOne` with upsert = true on the states collection. -/
def replaceState (states : List State) (st : State) : List State :=
  (states.filter fun s =>
    !(s.aggregateName == st.aggregateName && s.aggregateID == st.aggregateID)) ++ [st]

/-- Mirrors `Store.updateState`: skipped for an empty batch and when the
validated state carries no aggregate triple; otherwise the stored version
becomes the version of the last event of the batch. -/
def updateState (states : List State) (st : State) (events : List Event) :
    List State :=
  match events.getLast? with
  | none => states
  | some last =>
    if st.aggregateName == "" || st.aggregateID == 0 then states
    else replaceState states { st with version := last.aggregateVersion }

/-- Mirrors `Store.Insert`: validate the batch, insert every entry, update
the state document, commit. The surrounding transaction is modelled by
explicit state passing: on a validation error nothing is committed and the
store is returned unchanged alongside the error. -/
def insert (s : Store) (events : List Event) : Option VersionError × Store :=
  match validateVersion s.states events with
  | .error e => (some e, s)
  | .ok st => (none, ⟨s.entries ++ events, updateState s.states st events⟩)

/-- The current stored version of an aggregate: the version of its
states-collection document, or 0 when there is none. -/
def currentVersion (s : Store) (name : String) (id : Nat) : Int :=
  ((findState s.states name id).map (·.version)).getD 0

/-- The insertion condition claimed by the spec, written from the claim's
words for comparison with the code: every event of the batch belongs to the
aggregate (name, id) and the versions are contiguous ascending from v. -/
def contiguousFrom (name : String) (id : Nat) : Int → List Event → Bool
  | _, [] => true
  | v, e :: rest =>
    e.aggregateName == name && e.aggregateID == id && e.aggregateVersion == v
      && contiguousFrom name id (v + 1) rest

end Mongostore

/-- Errors surfaced by the repository, mirroring Go error values: the
store's `*VersionError`, the repository's `ErrVersionNotFound`, and
`fmt.Errorf("...: %w", err)` wrapping. -/
inductive Err where
  | versionConflict (e : Mongostore.VersionError)
  | versionNotFound
  | wrapped (msg : String) (cause : Err)
deriving DecidableEq, Repr

/-- Mirrors `errors.Unwrap` on an error produced by `fmt.Errorf` with %w. -/
def Err.unwrap : Err → Option Err
  | .wrapped _ cause => some cause
  | _ => none

/-- An aggregate as the repository sees it: identity, current version, and
the uncommitted changes (`AggregateChanges`). -/
structure Aggregate where
  aggregateName : String
  aggregateID : Nat
  aggregateVersion : Int
  changes : List Event
deriving DecidableEq, Repr

/-- The observable outcome of `repository.Save`: the returned error, the
aggregate after the call (Go mutates it in place), and the store after the
call. -/
structure SaveResult where
  err : Option Err
  agg : Aggregate
  store : Mongostore.Store
deriving DecidableEq, Repr

namespace Repository

/-- Mirrors `repository.Save`: insert the aggregate's uncommitted changes
into the store; on an insert error return it wrapped in the "insert events"
context without flushing the changes; on success flush (clear) them. -/
def save (s : Mongostore.Store) (a : Aggregate) : SaveResult :=
  match Mongostore.insert s a.changes with
  | (some e, s1) => ⟨some (.wrapped "insert events" (.versionConflict e)), a, s1⟩
  | (none, s1) => ⟨none, { a with changes := [] }, s1⟩

end Repository

/-- The sort fields of the query model (event.SortTime, SortAggregateName,
SortAggregateID, SortAggregateVersion). -/
inductive SortField
  | time
  | aggregateName
  | aggregateID
  | aggregateVersion
deriving DecidableEq, Repr

/-- Mirrors `event.SortOptions`: a sort field and a direction. -/
structure SortOption where
  field : SortField
  asc : Bool
deriving DecidableEq, Repr

/-- Modelled from the spec: the Query value object of the query model
(event/query, not under src/): membership sets for names, ids, aggregate
names and aggregate ids; inclusive time bounds plus the exclusive
`Time.After` lower bound; exact, disjunctive min/max and range constraints
for aggregate versions; and the ordered sortings list. Absent constraints
are empty lists / `none`. -/
structure Query where
  names : List String := []
  ids : List Nat := []
  timesExact : List Int := []
  timeMin : Option Int := none
  timeMax : Option Int := none
  timeAfter : Option Int := none
  timeRanges : List (Int × Int) := []
  aggregateNames : List String := []
  aggregateIDs : List Nat := []
  versionExact : List Int := []
  versionMin : List Int := []
  versionMax : List Int := []
  versionRanges : List (Int × Int) := []
  sortings : List SortOption := []
deriving DecidableEq, Repr

/-- Modelled from the spec: `query.Test` — an event matches iff it
satisfies every non-empty constraint set; time min/max are inclusive,
`After` is exclusive; aggregate-version min and max are disjunctive within
their field; ranges are inclusive at both ends. -/
def Query.test (q : Query) (e : Event) : Bool :=
  (q.names.isEmpty || q.names.contains e.name)
    && (q.ids.isEmpty || q.ids.contains e.id)
    && (q.timesExact.isEmpty || q.timesExact.contains e.time)
    && (match q.timeMin with | none => true | some t => decide (t ≤ e.time))
    && (match q.timeMax with | none => true | some t => decide (e.time ≤ t))
    && (match q.timeAfter with | none => true | some t => decide (t < e.time))
    && (q.timeRanges.isEmpty
      || q.timeRanges.any fun r => decide (r.1 ≤ e.time) && decide (e.time ≤ r.2))
    && (q.aggregateNames.isEmpty || q.aggregateNames.contains e.aggregateName)
    && (q.aggregateIDs.isEmpty || q.aggregateIDs.contains e.aggregateID)
    && (q.versionExact.isEmpty || q.versionExact.contains e.aggregateVersion)
    && (q.versionMin.isEmpty || q.versionMin.any fun v => decide (v ≤ e.aggregateVersion))
    && (q.versionMax.isEmpty || q.versionMax.any fun v => decide (e.aggregateVersion ≤ v))
    && (q.versionRanges.isEmpty || q.versionRanges.any fun r =>
      decide (r.1 ≤ e.aggregateVersion) && decide (e.aggregateVersion ≤ r.2))

/-- Conjunctive combination of two optional lower bounds: the larger. -/
def mergeMin : Option Int → Option Int → Option Int
  | none, b => b
  | some x, none => some x
  | some x, some y => some (max x y)

/-- Conjunctive combination of two optional upper bounds: the smaller. -/
def mergeMax : Option Int → Option Int → Option Int
  | none, b => b
  | some x, none => some x
  | some x, some y => some (min x y)

/-- Modelled from the spec: `query.Merge` — field-wise union for membership
sets, conjunctive narrowing for min/max bounds, concatenation for ranges
and sortings. -/
def Query.merge (a b : Query) : Query where
  names := a.names ++ b.names
  ids := a.ids ++ b.ids
  timesExact := a.timesExact ++ b.timesExact
  timeMin := mergeMin a.timeMin b.timeMin
  timeMax := mergeMax a.timeMax b.timeMax
  timeAfter := mergeMin a.timeAfter b.timeAfter
  timeRanges := a.timeRanges ++ b.timeRanges
  aggregateNames := a.aggregateNames ++ b.aggregateNames
  aggregateIDs := a.aggregateIDs ++ b.aggregateIDs
  versionExact := a.versionExact ++ b.versionExact
  versionMin := a.versionMin ++ b.versionMin
  versionMax := a.versionMax ++ b.versionMax
  versionRanges := a.versionRanges ++ b.versionRanges
  sortings := a.sortings ++ b.sortings

/-- Modelled from the spec: `query.New(query.Time(time.After(t)))` — a
query whose only constraint excludes events at or before time t. -/
def afterQuery (t : Int) : Query := { timeAfter := some t }

/-- Mirrors mongostore `makeFilter`: the conjunction of per-field mongo
filters; an empty constraint set imposes nothing; version min/max lists
translate to $or of $gte / $lte; time min/max are inclusive. The
spec-modelled `timeAfter` constraint never occurs in a query the code under
verification sends to the store, and `makeFilter` has no counterpart for
it. -/
def matchesFilter (q : Query) (e : Event) : Bool :=
  (q.names.isEmpty || q.names.contains e.name)
    && (q.ids.isEmpty || q.ids.contains e.id)
    && (q.timesExact.isEmpty || q.timesExact.contains e.time)
    && (match q.timeMin with | none => true | some t => decide (t ≤ e.time))
    && (match q.timeMax with | none => true | some t => decide (e.time ≤ t))
    && (q.timeRanges.isEmpty
      || q.timeRanges.any fun r => decide (r.1 ≤ e.time) && decide (e.time ≤ r.2))
    && (q.aggregateNames.isEmpty || q.aggregateNames.contains e.aggregateName)
    && (q.aggregateIDs.isEmpty || q.aggregateIDs.contains e.aggregateID)
    && (q.versionExact.isEmpty || q.versionExact.contains e.aggregateVersion)
    && (q.versionMin.isEmpty || q.versionMin.any fun v => decide (v ≤ e.aggregateVersion))
    && (q.versionMax.isEmpty || q.versionMax.any fun v => decide (e.aggregateVersion ≤ v))
    && (q.versionRanges.isEmpty || q.versionRanges.any fun r =>
      decide (r.1 ≤ e.aggregateVersion) && decide (e.aggregateVersion ≤ r.2))

/-- Strict comparison of two events on one sort field. -/
def fieldLt (f : SortField) (a b : Event) : Bool :=
  match f with
  | .time => decide (a.time < b.time)
  | .aggregateName => decide (a.aggregateName < b.aggregateName)
  | .aggregateID => decide (a.aggregateID < b.aggregateID)
  | .aggregateVersion => decide (a.aggregateVersion < b.aggregateVersion)

/-- Mirrors `applySortings`: lexicographic at-most comparison of two events
under the ordered sortings list; a descending field flips the comparison;
events tied on every field compare as equal (≤ both ways). -/
def sortLe : List SortOption → Event → Event → Bool
  | [], _, _ => true
  | s :: rest, a, b =>
    if fieldLt s.field a b then s.asc
    else if fieldLt s.field b a then !s.asc
    else sortLe rest a b

/-- The sort order of a query's sortings as a relation. -/
def sortRel (sortings : List SortOption) (a b : Event) : Prop :=
  sortLe sortings a b = true

instance (sortings : List SortOption) : DecidableRel (sortRel sortings) :=
  fun a b => inferInstanceAs (Decidable (sortLe sortings a b = true))

/-- The stream produced by mongostore `Store.Query`: the events matching
the translated filter, ordered per the query's sortings (the database sort
is modelled by a stable sort of the filtered collection). -/
def storeQuery (entries : List Event) (q : Query) : List Event :=
  List.insertionSort (sortRel q.sortings) (entries.filter (matchesFilter q))

/-- The single sorting used by the repository's fetch queries:
`SortBy(event.SortAggregateVersion, event.SortAsc)`. -/
def versionAsc : SortOption := ⟨.aggregateVersion, true⟩

namespace Repository

/-- The event query built by `repository.fetch`: the aggregate's name and
id, ascending aggregate-version sort, plus the provided version bounds. -/
def fetchQuery (a : Aggregate) (vmin vmax : List Int) : Query :=
  { aggregateNames := [a.aggregateName]
    aggregateIDs := [a.aggregateID]
    versionMin := vmin
    versionMax := vmax
    sortings := [versionAsc] }

/-- Modelled from the spec: `aggregate.ApplyHistory` (not under src/)
applies the fetched events in order, advancing the aggregate's version to
the version of each applied event, so that afterwards the version equals
the version of the last applied event. Payload application is irrelevant to
the claims and omitted. -/
def applyHistory (a : Aggregate) (events : List Event) : Aggregate :=
  events.foldl (fun acc e => { acc with aggregateVersion := e.aggregateVersion }) a

/-- The events fetched by `repository.FetchVersion` for aggregate a and an
already-clamped target version v. -/
def fetchVersionEvents (entries : List Event) (a : Aggregate) (v : Int) : List Event :=
  storeQuery entries (fetchQuery a [a.aggregateVersion + 1] [v])

/-- Mirrors `repository.FetchVersion`: a negative requested version is
clamped to 0; the aggregate's events with versions from a.version+1 to v
are fetched sorted ascending and applied; when the resulting version
differs from the clamped v, `ErrVersionNotFound` is returned. -/
def fetchVersion (entries : List Event) (a : Aggregate) (v : Int) :
    Except Err Aggregate :=
  let v := if v < 0 then 0 else v
  let a1 := applyHistory a (fetchVersionEvents entries a v)
  if a1.aggregateVersion ≠ v then .error .versionNotFound else .ok a1

end Repository

/-- A projection target as `EventsFor` observes it: `none` when the target
is not ProgressAware, `some p` for a ProgressAware target whose progress
time is p (p = 0 is the zero time). -/
structure Target where
  progress : Option Int
deriving DecidableEq, Repr

namespace Projection

/-- Mirrors the query construction of `job.EventsFor`: for a ProgressAware
target with a non-zero progress time the base query is merged with a query
constraining time to After(progress − 1ns); otherwise the base query is
used unchanged. -/
def eventsForQuery (base : Query) (target : Target) : Query :=
  match target.progress with
  | some p => if p = 0 then base else Query.merge base (afterQuery (p - 1))
  | none => base

/-- Mirrors `eventStream`: replays a cached slice into a channel, stopping
early when the context is canceled; `cancel = some k` means the context is
done before the (k+1)-th send. -/
def eventStream (events : List Event) (cancel : Option Nat) : List Event :=
  match cancel with
  | none => events
  | some k => events.take k

/-- Mirrors the goroutine of `queryCache.intercept`: forward events from
the store stream, accumulating every forwarded event; when the input
channel closes, the accumulated slice is handed to `update`; when the
context is canceled first, the goroutine returns without updating. The
result is (forwarded events, slice handed to update if any); when the input
closes in the same instant the budget runs out, the close case is taken. -/
def interceptLoop (acc : List Event) :
    List Event → Option Nat → List Event × Option (List Event)
  | [], _ => ([], some acc)
  | _ :: _, some 0 => ([], none)
  | e :: rest, some (k + 1) =>
    let r := interceptLoop (acc ++ [e]) rest (some k)
    (e :: r.1, r.2)
  | e :: rest, none =>
    let r := interceptLoop (acc ++ [e]) rest none
    (e :: r.1, r.2)

/-- Mirrors `queryCache.intercept` with an empty accumulator. -/
def intercept (input : List Event) (cancel : Option Nat) :
    List Event × Option (List Event) :=
  interceptLoop [] input cancel

/-- The query cache content: fingerprint → committed slice. The SHA-256
fingerprint `hashQuery` is modelled as the query value itself; the claims
presuppose a collision-free fingerprint. -/
structure QueryCache where
  cache : List (Query × List Event)
deriving DecidableEq, Repr

/-- Mirrors `queryCache.cached` (the defensive copy made for the caller is
the value itself in this model). -/
def QueryCache.cachedAt (c : QueryCache) (q : Query) : Option (List Event) :=
  (c.cache.find? fun p => decide (p.1 = q)).map (·.2)

/-- Mirrors `queryCache.update`. -/
def QueryCache.update (c : QueryCache) (q : Query) (events : List Event) :
    QueryCache :=
  ⟨(q, events) :: c.cache⟩

/-- The observable outcome of one `queryCache.run`: the events the consumer
receives, the cache afterwards, and whether the backing store was queried. -/
structure RunResult where
  out : List Event
  cache : QueryCache
  storeQueried : Bool
deriving DecidableEq, Repr

/-- Mirrors `queryCache.run`: on a cache hit the cached slice is replayed
through `eventStream`; on a miss the store is queried (`storeEvents` is the
store's response stream for q) and teed through `intercept`, committing to
the cache only when the interception completes. The per-fingerprint lock
and the double-check after acquiring it serialize concurrent builds and
have no further content in this sequential model. -/
def QueryCache.run (c : QueryCache) (q : Query) (storeEvents : List Event)
    (cancel : Option Nat) : RunResult :=
  match c.cachedAt q with
  | some events => ⟨eventStream events cancel, c, false⟩
  | none =>
    let r := intercept storeEvents cancel
    match r.2 with
    | some committed => ⟨r.1, c.update q committed, true⟩
    | none => ⟨r.1, c, true⟩

end Projection

namespace Project

/-- A schedule job ticket: the aggregate reference a schedule emits. -/
structure Ticket where
  aggregateName : String
  aggregateID : Nat
deriving DecidableEq, Repr

/-- Mirrors `shouldDiscard`: events without an aggregate triple are
discarded, the rest are tested against the configured filter query. -/
def shouldDiscard (evt : Event) (q : Query) : Bool :=
  if evt.aggregateName == "" || evt.aggregateID == 0 then true
  else !(Query.test q evt)

/-- Mirrors `continously.handleEvents`: the tickets sent to the jobs
channel for a received stream of bus events, in order. -/
def handleEvents (events : List Event) (filter : Query) : List Ticket :=
  match events with
  | [] => []
  | evt :: rest =>
    if shouldDiscard evt filter then handleEvents rest filter
    else ⟨evt.aggregateName, evt.aggregateID⟩ :: handleEvents rest filter

/-- Mirrors `subscription.handleCancel` as a timing function on an integer
timeline: given the configured stop timeout (0 = option unset, matching the
`sub.stopTimeout > 0` guard), the instant the parent context is canceled
and the instant the handler loop closes `handleDone` (`none` = never), it
returns the instant the stop channel is closed (`none` = never). An unset
timeout leaves the timeout channel nil, and receiving from a nil channel
blocks forever, so the second select then waits on `handleDone` alone. -/
def stopCloseTime (stopTimeout : Nat) (cancelT : Nat) (doneT : Option Nat) :
    Option Nat :=
  match doneT with
  | some d =>
    if d ≤ cancelT then some d
    else if 0 < stopTimeout then some (min d (cancelT + stopTimeout)) else some d
  | none => if 0 < stopTimeout then some (cancelT + stopTimeout) else none

end Project

/-- An aggregate event with a version gap used as the C1 counterexample:
the aggregate (foo, 1) has current version 0 and the event claims version 5. -/
def gapEvent : Event := ⟨1, "foo", 0, "foo", 1, 5⟩

/-- A store whose states collection has aggregate (foo, 1) at version 3,
used by the C2 counterexample. -/
def storeAtThree : Mongostore.Store := ⟨[], [⟨"foo", 1, 3⟩]⟩

/-- An uncommitted change that conflicts with `storeAtThree`: it claims
version 3 while the stored current version is already 3. -/
def conflictingChange : Event := ⟨2, "foo", 0, "foo", 1, 3⟩

/-- The aggregate whose only uncommitted change is `conflictingChange`. -/
def conflictedAgg : Aggregate := ⟨"foo", 1, 3, [conflictingChange]⟩

/-- The version error the store reports for `conflictedAgg`'s save. -/
def conflictVe : Mongostore.VersionError := ⟨"foo", 1, 3, conflictingChange⟩

/-- A fresh aggregate (version 0, no changes) used by the C3/C9 theorems. -/
def freshAgg : Aggregate := ⟨"foo", 1, 0, []⟩

/-- The query with no constraints, `query.New()`. -/
def emptyQuery : Query := {}

/-- An event without an aggregate triple, used by witnesses. -/
def plainEvent : Event := ⟨3, "plain", 4, "", 0, 0⟩

/-- An event with an aggregate triple, used by witnesses. -/
def tripleEvent : Event := ⟨4, "made", 9, "foo", 1, 1⟩

/- ------------------------------------------------------------------ -/
/- Theorems.                                                           -/
/- ------------------------------------------------------------------ -/

namespace Mongostore

theorem getD_version (s : Store) (name : String) (id : Nat) :
    ((findState s.states name id).getD ⟨name, id, 0⟩).version
      = currentVersion s name id := by
  rw [currentVersion]
  cases findState s.states name id <;> rfl

theorem validateVersion_cons (s : Store) (evt : Event) (rest : List Event) :
    validateVersion s.states (evt :: rest) =
      if evt.aggregateName = "" ∨ evt.aggregateID = 0 then Except.ok default
      else if evt.aggregateVersion ≤ currentVersion s evt.aggregateName evt.aggregateID
      then Except.error ⟨evt.aggregateName, evt.aggregateID,
          currentVersion s evt.aggregateName evt.aggregateID, evt⟩
      else Except.ok ((findState s.states evt.aggregateName evt.aggregateID).getD
          ⟨evt.aggregateName, evt.aggregateID, 0⟩) := by
  rw [validateVersion]
  by_cases h1 : evt.aggregateName = "" ∨ evt.aggregateID = 0
  · rw [if_pos (by rcases h1 with h | h <;> simp [h]), if_pos h1]
  · have h1' := h1
    push_neg at h1'
    rw [if_neg (by simp [h1'.1, h1'.2]), if_neg h1]
    show (if ((findState s.states evt.aggregateName evt.aggregateID).getD
        ⟨evt.aggregateName, evt.aggregateID, 0⟩).version ≥ evt.aggregateVersion
      then _ else _) = _
    rw [getD_version s evt.aggregateName evt.aggregateID]

theorem insert_def (s : Store) (events : List Event) :
    insert s events = match validateVersion s.states events with
      | .error e => (some e, s)
      | .ok st => (none, ⟨s.entries ++ events, updateState s.states st events⟩) :=
  rfl

theorem insert_error_frame (s : Store) (events : List Event)
    (h : (insert s events).1.isSome = true) : (insert s events).2 = s := by
  rw [insert_def] at h ⊢
  cases hv : validateVersion s.states events with
  | error e => rfl
  | ok st =>
    rw [hv] at h
    exact Bool.noConfusion h

theorem insert_ok_entries (s : Store) (events : List Event)
    (h : (insert s events).1 = none) :
    (insert s events).2.entries = s.entries ++ events := by
  rw [insert_def] at h ⊢
  cases hv : validateVersion s.states events with
  | error e =>
    rw [hv] at h
    exact Option.noConfusion h
  | ok st => rfl

end Mongostore

/-- C1: the claim is false on the code. Inserting a single event whose
version (5) does not continue the current version (0) of its aggregate
violates the claimed contiguity requirement, yet `Store.Insert` succeeds
and commits the event, because `validateVersion` only compares the stored
version with the version of the first event of the batch. -/
theorem c1_counterexample :
    Mongostore.contiguousFrom "foo" 1
        (Mongostore.currentVersion ⟨[], []⟩ "foo" 1 + 1) [gapEvent] = false
      ∧ (Mongostore.insert ⟨[], []⟩ [gapEvent]).1 = none
      ∧ (Mongostore.insert ⟨[], []⟩ [gapEvent]).2.entries = [gapEvent] := by
  refine ⟨by decide, rfl, rfl⟩

/-- C1 amended: `Store.Insert` fails with a `VersionError` iff the batch is
non-empty, its first event carries an aggregate triple, and the stored
current version of that aggregate is at least the first event's version —
only the first event is validated, contiguity and membership of the rest of
the batch are not checked. On such a failure no event is committed: the
store is returned unchanged. -/
theorem c1_insert_version_error (s : Mongostore.Store) (events : List Event) :
    ((Mongostore.insert s events).1.isSome ↔
      ∃ evt rest, events = evt :: rest ∧ evt.aggregateName ≠ "" ∧ evt.aggregateID ≠ 0
        ∧ evt.aggregateVersion ≤ Mongostore.currentVersion s evt.aggregateName evt.aggregateID)
    ∧ ((Mongostore.insert s events).1.isSome → (Mongostore.insert s events).2 = s) := by
  cases events with
  | nil =>
    refine ⟨by simp [Mongostore.insert, Mongostore.validateVersion], ?_⟩
    intro h
    simp [Mongostore.insert, Mongostore.validateVersion] at h
  | cons evt rest =>
    rw [Mongostore.insert, Mongostore.validateVersion_cons]
    by_cases h1 : evt.aggregateName = "" ∨ evt.aggregateID = 0
    · rw [if_pos h1]
      constructor
      · simp only [Option.isSome_none, Bool.false_eq_true, false_iff]
        rintro ⟨e, r, heq, hn, hi, -⟩
        rw [List.cons.injEq] at heq
        obtain ⟨he, -⟩ := heq
        subst he
        rcases h1 with h | h
        · exact hn h
        · exact hi h
      · intro h
        simp at h
    · rw [if_neg h1]
      push_neg at h1
      by_cases h3 : evt.aggregateVersion ≤
          Mongostore.currentVersion s evt.aggregateName evt.aggregateID
      · rw [if_pos h3]
        refine ⟨?_, fun _ => rfl⟩
        simp only [Option.isSome_some, true_iff]
        exact ⟨evt, rest, rfl, h1.1, h1.2, h3⟩
      · rw [if_neg h3]
        constructor
        · simp only [Option.isSome_none, Bool.false_eq_true, false_iff]
          rintro ⟨e, r, heq, -, -, hle⟩
          rw [List.cons.injEq] at heq
          obtain ⟨he, -⟩ := heq
          subst he
          exact h3 hle
        · intro h
          simp at h

/-- Witness for the C1 amended theorem: a concrete conflicting insert — the
aggregate (foo, 1) is at version 3 and the incoming first event also claims
version 3, so the insert fails and commits nothing. -/
theorem c1_insert_version_error_witness :
    ((Mongostore.insert storeAtThree [conflictingChange]).1.isSome ↔
      ∃ evt rest, [conflictingChange] = evt :: rest
        ∧ evt.aggregateName ≠ "" ∧ evt.aggregateID ≠ 0
        ∧ evt.aggregateVersion ≤
            Mongostore.currentVersion storeAtThree evt.aggregateName evt.aggregateID)
    ∧ ((Mongostore.insert storeAtThree [conflictingChange]).1.isSome →
        (Mongostore.insert storeAtThree [conflictingChange]).2 = storeAtThree) :=
  c1_insert_version_error storeAtThree [conflictingChange]

/-- C10: an insert of an empty batch, or of a batch whose first event
carries no aggregate triple (empty aggregate name or nil aggregate id),
skips version validation, succeeds, appends the entries, and leaves the
states collection unchanged. -/
theorem c10_insert_skips_validation (s : Mongostore.Store) (events : List Event)
    (h : events = [] ∨ ∃ evt rest, events = evt :: rest
      ∧ (evt.aggregateName = "" ∨ evt.aggregateID = 0)) :
    (Mongostore.insert s events).1 = none
      ∧ (Mongostore.insert s events).2.states = s.states
      ∧ (Mongostore.insert s events).2.entries = s.entries ++ events := by
  rcases h with h | ⟨evt, rest, heq, htriple⟩
  · subst h
    exact ⟨rfl, by simp [Mongostore.insert, Mongostore.validateVersion,
      Mongostore.updateState], by simp [Mongostore.insert, Mongostore.validateVersion]⟩
  · subst heq
    have hcond : (evt.aggregateName == "" || evt.aggregateID == 0) = true := by
      rcases htriple with h | h <;> simp [h]
    rw [Mongostore.insert, Mongostore.validateVersion]
    rw [if_pos hcond]
    refine ⟨rfl, ?_, rfl⟩
    show Mongostore.updateState s.states default (evt :: rest) = s.states
    rw [Mongostore.updateState]
    cases hlast : (evt :: rest).getLast? with
    | none => rfl
    | some last => rfl

/-- Witness for C10: inserting an event without an aggregate triple into a
store holding one state document changes no state and appends the entry. -/
theorem c10_insert_skips_validation_witness :
    (Mongostore.insert storeAtThree [⟨7, "bar", 2, "", 0, 0⟩]).1 = none
      ∧ (Mongostore.insert storeAtThree [⟨7, "bar", 2, "", 0, 0⟩]).2.states
          = storeAtThree.states
      ∧ (Mongostore.insert storeAtThree [⟨7, "bar", 2, "", 0, 0⟩]).2.entries
          = storeAtThree.entries ++ [⟨7, "bar", 2, "", 0, 0⟩] :=
  c10_insert_skips_validation storeAtThree [⟨7, "bar", 2, "", 0, 0⟩]
    (Or.inr ⟨⟨7, "bar", 2, "", 0, 0⟩, [], rfl, Or.inl rfl⟩)

/-- C2: the claim's "propagated unchanged" is false on the code. For a
concrete conflicting save, the store reports a VersionError, but the error
`repository.Save` returns to the caller is that error wrapped in an
"insert events" context (`fmt.Errorf` with %w), not the store's error
itself; the VersionError survives unchanged as the wrapped cause. -/
theorem c2_counterexample :
    (Mongostore.insert storeAtThree conflictedAgg.changes).1 = some conflictVe
      ∧ (Repository.save storeAtThree conflictedAgg).err
          = some (Err.wrapped "insert events" (Err.versionConflict conflictVe))
      ∧ (Repository.save storeAtThree conflictedAgg).err
          ≠ some (Err.versionConflict conflictVe) := by
  refine ⟨by decide, by decide, by decide⟩

/-- C2 amended: `repository.Save` inserts exactly the aggregate's
uncommitted changes. On success the changes are cleared and the inserted
events are appended to the store. When the insert fails with a
VersionConflict, the uncommitted changes and the store are left unchanged
and the error is propagated wrapped in an "insert events" context, from
which unwrapping recovers the store's VersionConflict unchanged. -/
theorem c2_save (s : Mongostore.Store) (a : Aggregate) :
    ((Mongostore.insert s a.changes).1 = none →
      (Repository.save s a).err = none
        ∧ (Repository.save s a).agg = { a with changes := [] }
        ∧ (Repository.save s a).store.entries = s.entries ++ a.changes)
    ∧ (∀ e, (Mongostore.insert s a.changes).1 = some e →
      (Repository.save s a).err
          = some (Err.wrapped "insert events" (Err.versionConflict e))
        ∧ (Repository.save s a).agg = a
        ∧ (Repository.save s a).store = s
        ∧ ∃ w, (Repository.save s a).err = some w
            ∧ w.unwrap = some (Err.versionConflict e)) := by
  rcases hi : Mongostore.insert s a.changes with ⟨o, s1⟩
  constructor
  · intro h
    have ho : o = none := h
    subst ho
    have hent := Mongostore.insert_ok_entries s a.changes (by rw [hi])
    rw [hi] at hent
    simp only [Repository.save, hi]
    exact ⟨trivial, trivial, hent⟩
  · intro e he
    have ho : o = some e := he
    subst ho
    have hframe := Mongostore.insert_error_frame s a.changes (by rw [hi]; rfl)
    rw [hi] at hframe
    simp only [Repository.save, hi]
    exact ⟨trivial, trivial, hframe,
      ⟨Err.wrapped "insert events" (Err.versionConflict e), rfl, rfl⟩⟩

/-- Witness for the C2 amended theorem at the concrete conflicting save. -/
theorem c2_save_witness :
    ((Mongostore.insert storeAtThree conflictedAgg.changes).1 = none →
      (Repository.save storeAtThree conflictedAgg).err = none
        ∧ (Repository.save storeAtThree conflictedAgg).agg
            = { conflictedAgg with changes := [] }
        ∧ (Repository.save storeAtThree conflictedAgg).store.entries
            = storeAtThree.entries ++ conflictedAgg.changes)
    ∧ (∀ e, (Mongostore.insert storeAtThree conflictedAgg.changes).1 = some e →
      (Repository.save storeAtThree conflictedAgg).err
          = some (Err.wrapped "insert events" (Err.versionConflict e))
        ∧ (Repository.save storeAtThree conflictedAgg).agg = conflictedAgg
        ∧ (Repository.save storeAtThree conflictedAgg).store = storeAtThree
        ∧ ∃ w, (Repository.save storeAtThree conflictedAgg).err = some w
            ∧ w.unwrap = some (Err.versionConflict e)) :=
  c2_save storeAtThree conflictedAgg

theorem sortLe_versionAsc (a b : Event) :
    sortLe [versionAsc] a b = decide (a.aggregateVersion ≤ b.aggregateVersion) := by
  by_cases h1 : a.aggregateVersion < b.aggregateVersion <;>
    by_cases h2 : b.aggregateVersion < a.aggregateVersion <;>
    simp [sortLe, versionAsc, fieldLt, h1, h2] <;> omega

instance : IsTotal Event (sortRel [versionAsc]) where
  total a b := by
    simp only [sortRel, sortLe_versionAsc, decide_eq_true_eq]
    omega

instance : IsTrans Event (sortRel [versionAsc]) where
  trans a b c hab hbc := by
    simp only [sortRel, sortLe_versionAsc, decide_eq_true_eq] at hab hbc ⊢
    omega

theorem matchesFilter_fetchQuery (a : Aggregate) (vmin vmax : Int) (e : Event) :
    matchesFilter (Repository.fetchQuery a [vmin] [vmax]) e
      = (e.aggregateName == a.aggregateName && e.aggregateID == a.aggregateID
        && decide (vmin ≤ e.aggregateVersion)
        && decide (e.aggregateVersion ≤ vmax)) := by
  rw [Bool.eq_iff_iff]
  simp [matchesFilter, Repository.fetchQuery]

theorem storeQuery_versionAsc_perm (entries : List Event) (q : Query)
    (hq : q.sortings = [versionAsc]) :
    (storeQuery entries q).Perm (entries.filter (matchesFilter q)) := by
  rw [storeQuery, hq]
  exact List.perm_insertionSort (sortRel [versionAsc]) _

theorem storeQuery_versionAsc_sorted (entries : List Event) (q : Query)
    (hq : q.sortings = [versionAsc]) :
    List.Sorted (fun x y : Event => x.aggregateVersion ≤ y.aggregateVersion)
      (storeQuery entries q) := by
  rw [storeQuery, hq]
  refine List.Pairwise.imp ?_
    (List.sorted_insertionSort (sortRel [versionAsc]) (entries.filter (matchesFilter q)))
  intro x y hxy
  rw [sortRel, sortLe_versionAsc] at hxy
  exact of_decide_eq_true hxy

theorem fetchVersion_unfold (entries : List Event) (a : Aggregate) (v : Int)
    (hv : 0 ≤ v) :
    Repository.fetchVersion entries a v =
      if (Repository.applyHistory a
            (Repository.fetchVersionEvents entries a v)).aggregateVersion ≠ v
      then Except.error Err.versionNotFound
      else Except.ok (Repository.applyHistory a
            (Repository.fetchVersionEvents entries a v)) := by
  simp only [Repository.fetchVersion]
  rw [if_neg (not_lt.mpr hv)]

/-- C3: the claim is false on the code at a negative requested version. For
a fresh aggregate and v = −1, the version after applying (0) differs from
the requested version, so the claim demands VersionNotFound, but
`FetchVersion` clamps v to 0 first and succeeds. -/
theorem c3_counterexample :
    (Repository.fetchVersion [] freshAgg (-1)).isOk = true
      ∧ (Repository.applyHistory freshAgg
          (Repository.fetchVersionEvents [] freshAgg (-1))).aggregateVersion
          ≠ (-1 : Int) := by
  refine ⟨by decide, by decide⟩

/-- C3 amended: for every non-negative requested version v, `FetchVersion`
fetches the events of (a.name, a.id) with versions between a.version+1 and
v — exactly those, sorted ascending by aggregate version — applies them,
and returns VersionNotFound exactly when the aggregate's version after
applying differs from v (and the updated aggregate exactly otherwise). -/
theorem c3_fetch_version (entries : List Event) (a : Aggregate) (v : Int)
    (hv : 0 ≤ v) :
    (Repository.fetchVersionEvents entries a v).Perm (entries.filter fun e =>
        e.aggregateName == a.aggregateName && e.aggregateID == a.aggregateID
          && decide (a.aggregateVersion + 1 ≤ e.aggregateVersion)
          && decide (e.aggregateVersion ≤ v))
    ∧ List.Sorted (fun x y : Event => x.aggregateVersion ≤ y.aggregateVersion)
        (Repository.fetchVersionEvents entries a v)
    ∧ (Repository.fetchVersion entries a v = Except.error Err.versionNotFound ↔
        (Repository.applyHistory a
          (Repository.fetchVersionEvents entries a v)).aggregateVersion ≠ v)
    ∧ (Repository.fetchVersion entries a v
        = Except.ok (Repository.applyHistory a
            (Repository.fetchVersionEvents entries a v)) ↔
        (Repository.applyHistory a
          (Repository.fetchVersionEvents entries a v)).aggregateVersion = v) := by
  have hfe : ∀ e ∈ entries,
      matchesFilter (Repository.fetchQuery a [a.aggregateVersion + 1] [v]) e
        = (e.aggregateName == a.aggregateName && e.aggregateID == a.aggregateID
          && decide (a.aggregateVersion + 1 ≤ e.aggregateVersion)
          && decide (e.aggregateVersion ≤ v)) :=
    fun e _ => matchesFilter_fetchQuery a _ _ e
  refine ⟨?_, ?_, ?_, ?_⟩
  · have hp := storeQuery_versionAsc_perm entries
      (Repository.fetchQuery a [a.aggregateVersion + 1] [v]) rfl
    rw [List.filter_congr hfe] at hp
    exact hp
  · exact storeQuery_versionAsc_sorted entries _ rfl
  · rw [fetchVersion_unfold entries a v hv]
    by_cases hne : (Repository.applyHistory a
        (Repository.fetchVersionEvents entries a v)).aggregateVersion ≠ v
    · rw [if_pos hne]
      exact ⟨fun _ => hne, fun _ => rfl⟩
    · rw [if_neg hne]
      exact ⟨fun h => Except.noConfusion h, fun h => absurd h hne⟩
  · rw [fetchVersion_unfold entries a v hv]
    by_cases hne : (Repository.applyHistory a
        (Repository.fetchVersionEvents entries a v)).aggregateVersion ≠ v
    · rw [if_pos hne]
      exact ⟨fun h => Except.noConfusion h, fun h => absurd h hne⟩
    · rw [if_neg hne]
      exact ⟨fun _ => not_not.mp hne, fun _ => rfl⟩

/-- Witness for the C3 amended theorem: an aggregate whose single stored
event has version 1, fetched at version 1. -/
theorem c3_fetch_version_witness :
    (Repository.fetchVersionEvents [⟨5, "made", 0, "foo", 1, 1⟩] freshAgg 1).Perm
      ([⟨5, "made", 0, "foo", 1, 1⟩].filter fun e =>
        e.aggregateName == freshAgg.aggregateName
          && e.aggregateID == freshAgg.aggregateID
          && decide (freshAgg.aggregateVersion + 1 ≤ e.aggregateVersion)
          && decide (e.aggregateVersion ≤ 1))
    ∧ List.Sorted (fun x y : Event => x.aggregateVersion ≤ y.aggregateVersion)
        (Repository.fetchVersionEvents [⟨5, "made", 0, "foo", 1, 1⟩] freshAgg 1)
    ∧ (Repository.fetchVersion [⟨5, "made", 0, "foo", 1, 1⟩] freshAgg 1
        = Except.error Err.versionNotFound ↔
        (Repository.applyHistory freshAgg
          (Repository.fetchVersionEvents [⟨5, "made", 0, "foo", 1, 1⟩] freshAgg 1)).aggregateVersion
          ≠ 1)
    ∧ (Repository.fetchVersion [⟨5, "made", 0, "foo", 1, 1⟩] freshAgg 1
        = Except.ok (Repository.applyHistory freshAgg
            (Repository.fetchVersionEvents [⟨5, "made", 0, "foo", 1, 1⟩] freshAgg 1)) ↔
        (Repository.applyHistory freshAgg
          (Repository.fetchVersionEvents [⟨5, "made", 0, "foo", 1, 1⟩] freshAgg 1)).aggregateVersion
          = 1) :=
  c3_fetch_version [⟨5, "made", 0, "foo", 1, 1⟩] freshAgg 1 (by decide)

/-- C9: `FetchVersion` with a negative requested version behaves exactly as
if called with v = 0: the outcome is identical, and the call succeeds iff
the aggregate's version after fetching with upper bound 0 is 0. -/
theorem c9_fetch_version_clamps (entries : List Event) (a : Aggregate) (v : Int)
    (hv : v < 0) :
    Repository.fetchVersion entries a v = Repository.fetchVersion entries a 0
      ∧ ((Repository.fetchVersion entries a v).isOk = true ↔
          (Repository.applyHistory a
            (Repository.fetchVersionEvents entries a 0)).aggregateVersion = 0) := by
  have h1 : Repository.fetchVersion entries a v =
      if (Repository.applyHistory a
            (Repository.fetchVersionEvents entries a 0)).aggregateVersion ≠ 0
      then Except.error Err.versionNotFound
      else Except.ok (Repository.applyHistory a
            (Repository.fetchVersionEvents entries a 0)) := by
    simp only [Repository.fetchVersion]
    rw [if_pos hv]
  have h2 := fetchVersion_unfold entries a 0 le_rfl
  refine ⟨h1.trans h2.symm, ?_⟩
  rw [h1]
  by_cases hne : (Repository.applyHistory a
      (Repository.fetchVersionEvents entries a 0)).aggregateVersion ≠ 0
  · rw [if_pos hne]
    exact ⟨fun h => Bool.noConfusion h, fun h => absurd h hne⟩
  · rw [if_neg hne]
    exact ⟨fun _ => not_not.mp hne, fun _ => rfl⟩

/-- Witness for C9 at v = −1 on an empty store. -/
theorem c9_fetch_version_clamps_witness :
    Repository.fetchVersion [] freshAgg (-1) = Repository.fetchVersion [] freshAgg 0
      ∧ ((Repository.fetchVersion [] freshAgg (-1)).isOk = true ↔
          (Repository.applyHistory freshAgg
            (Repository.fetchVersionEvents [] freshAgg 0)).aggregateVersion = 0) :=
  c9_fetch_version_clamps [] freshAgg (-1) (by decide)

theorem mergeMin_none_right (x : Option Int) : mergeMin x none = x := by
  cases x <;> rfl

theorem mergeMax_none_right (x : Option Int) : mergeMax x none = x := by
  cases x <;> rfl

theorem mergeMin_none_left (y : Option Int) : mergeMin none y = y := rfl

theorem mergeMin_some_some (x y : Int) :
    mergeMin (some x) (some y) = some (max x y) := rfl

theorem test_merge_afterQuery (q : Query) (t : Int) (e : Event) :
    Query.test (Query.merge q (afterQuery t)) e
      = (Query.test q e && decide (t < e.time)) := by
  rw [Bool.eq_iff_iff]
  cases hta : q.timeAfter with
  | none =>
    simp only [Query.test, Query.merge, afterQuery, hta, mergeMin_none_right,
      mergeMax_none_right, mergeMin_none_left, List.append_nil,
      Bool.and_eq_true, decide_eq_true_eq]
    tauto
  | some x =>
    simp only [Query.test, Query.merge, afterQuery, hta, mergeMin_none_right,
      mergeMax_none_right, mergeMin_some_some, List.append_nil,
      Bool.and_eq_true, decide_eq_true_eq, max_lt_iff]
    tauto

/-- C4: `Job.EventsFor` queries with the base query merged with
Time.After(progress − 1ns) for a ProgressAware target whose progress is
non-zero — so that an event passes the effective query iff it passes the
base query and its time is strictly after progress − 1ns — and with exactly
the base query for a target that is not ProgressAware or whose progress is
the zero time. -/
theorem c4_events_for_query (base : Query) (t : Target) (p : Int) :
    (t.progress = none → Projection.eventsForQuery base t = base)
    ∧ (t.progress = some 0 → Projection.eventsForQuery base t = base)
    ∧ (t.progress = some p → p ≠ 0 →
        Projection.eventsForQuery base t = Query.merge base (afterQuery (p - 1))
          ∧ ∀ e : Event, Query.test (Projection.eventsForQuery base t) e
              = (Query.test base e && decide (p - 1 < e.time))) := by
  refine ⟨?_, ?_, ?_⟩
  · intro h
    simp only [Projection.eventsForQuery, h]
  · intro h
    simp [Projection.eventsForQuery, h]
  · intro h hp
    have hq : Projection.eventsForQuery base t = Query.merge base (afterQuery (p - 1)) := by
      simp only [Projection.eventsForQuery, h, if_neg hp]
    refine ⟨hq, fun e => ?_⟩
    rw [hq]
    exact test_merge_afterQuery base (p - 1) e

/-- Witness for C4 at a ProgressAware target with progress 5 and the empty
base query. -/
theorem c4_events_for_query_witness :
    ((⟨some 5⟩ : Target).progress = none →
        Projection.eventsForQuery emptyQuery ⟨some 5⟩ = emptyQuery)
    ∧ ((⟨some 5⟩ : Target).progress = some 0 →
        Projection.eventsForQuery emptyQuery ⟨some 5⟩ = emptyQuery)
    ∧ ((⟨some 5⟩ : Target).progress = some 5 → (5 : Int) ≠ 0 →
        Projection.eventsForQuery emptyQuery ⟨some 5⟩
            = Query.merge emptyQuery (afterQuery (5 - 1))
          ∧ ∀ e : Event, Query.test (Projection.eventsForQuery emptyQuery ⟨some 5⟩) e
              = (Query.test emptyQuery e && decide ((5 : Int) - 1 < e.time))) :=
  c4_events_for_query emptyQuery ⟨some 5⟩ 5

theorem interceptLoop_no_cancel (input : List Event) (acc : List Event) :
    Projection.interceptLoop acc input none = (input, some (acc ++ input)) := by
  induction input generalizing acc with
  | nil => simp [Projection.interceptLoop]
  | cons e rest ih =>
    simp [Projection.interceptLoop, ih]

theorem interceptLoop_canceled (input : List Event) (acc : List Event) (k : Nat)
    (hk : k < input.length) :
    Projection.interceptLoop acc input (some k) = (input.take k, none) := by
  induction input generalizing acc k with
  | nil => simp at hk
  | cons e rest ih =>
    cases k with
    | zero => rfl
    | succ k =>
      have hk2 : k < rest.length := by simpa using hk
      simp [Projection.interceptLoop, ih _ _ hk2]

theorem intercept_no_cancel (input : List Event) :
    Projection.intercept input none = (input, some input) := by
  rw [Projection.intercept, interceptLoop_no_cancel]
  simp

theorem intercept_canceled (input : List Event) (k : Nat) (hk : k < input.length) :
    Projection.intercept input (some k) = (input.take k, none) :=
  interceptLoop_canceled input [] k hk

theorem cachedAt_nil (q : Query) : Projection.QueryCache.cachedAt ⟨[]⟩ q = none :=
  rfl

theorem run_empty_no_cancel (q : Query) (es : List Event) :
    Projection.QueryCache.run ⟨[]⟩ q es none = ⟨es, ⟨[(q, es)]⟩, true⟩ := by
  simp [Projection.QueryCache.run, cachedAt_nil, intercept_no_cancel,
    Projection.QueryCache.update]

theorem run_empty_canceled (q : Query) (es : List Event) (k : Nat)
    (hk : k < es.length) :
    Projection.QueryCache.run ⟨[]⟩ q es (some k) = ⟨es.take k, ⟨[]⟩, true⟩ := by
  simp [Projection.QueryCache.run, cachedAt_nil, intercept_canceled es k hk]

theorem run_hit (c : Projection.QueryCache) (q : Query) (es es2 : List Event)
    (cancel : Option Nat) (h : c.cachedAt q = some es) :
    Projection.QueryCache.run c q es2 cancel
      = ⟨Projection.eventStream es cancel, c, false⟩ := by
  simp [Projection.QueryCache.run, h]

theorem run_queries_store (c : Projection.QueryCache) (q : Query)
    (es : List Event) (cancel : Option Nat) (h : c.cachedAt q = none) :
    (Projection.QueryCache.run c q es cancel).storeQueried = true := by
  rw [Projection.QueryCache.run, h]
  show (match (Projection.intercept es cancel).2 with
    | some committed =>
      (⟨(Projection.intercept es cancel).1, c.update q committed, true⟩ :
        Projection.RunResult)
    | none => ⟨(Projection.intercept es cancel).1, c, true⟩).storeQueried = true
  cases (Projection.intercept es cancel).2 <;> rfl

/-- C5: a build that completes without cancellation commits exactly the
forwarded slice to the cache; a build canceled mid-stream forwards only a
prefix and leaves the cache entry absent (the cache is unchanged), so a
later run for the same fingerprint queries the store again. -/
theorem c5_query_cache (q : Query) (es es2 : List Event) (k : Nat)
    (c2 : Option Nat) (hk : k < es.length) :
    ((Projection.QueryCache.run ⟨[]⟩ q es none).cache.cachedAt q
        = some (Projection.QueryCache.run ⟨[]⟩ q es none).out
      ∧ (Projection.QueryCache.run ⟨[]⟩ q es none).out = es)
    ∧ ((Projection.QueryCache.run ⟨[]⟩ q es (some k)).cache.cachedAt q = none
      ∧ (Projection.QueryCache.run ⟨[]⟩ q es (some k)).out = es.take k
      ∧ (Projection.QueryCache.run ⟨[]⟩ q es (some k)).cache = ⟨[]⟩)
    ∧ (Projection.QueryCache.run
        (Projection.QueryCache.run ⟨[]⟩ q es (some k)).cache q es2 c2).storeQueried
        = true := by
  rw [run_empty_no_cancel, run_empty_canceled q es k hk]
  refine ⟨⟨?_, rfl⟩, ⟨rfl, rfl, rfl⟩, ?_⟩
  · simp [Projection.QueryCache.cachedAt]
  · exact run_queries_store ⟨[]⟩ q es2 c2 rfl

/-- Witness for C5 with a one-event store response canceled before the
first send. -/
theorem c5_query_cache_witness :
    ((Projection.QueryCache.run ⟨[]⟩ emptyQuery [tripleEvent] none).cache.cachedAt emptyQuery
        = some (Projection.QueryCache.run ⟨[]⟩ emptyQuery [tripleEvent] none).out
      ∧ (Projection.QueryCache.run ⟨[]⟩ emptyQuery [tripleEvent] none).out = [tripleEvent])
    ∧ ((Projection.QueryCache.run ⟨[]⟩ emptyQuery [tripleEvent] (some 0)).cache.cachedAt emptyQuery
        = none
      ∧ (Projection.QueryCache.run ⟨[]⟩ emptyQuery [tripleEvent] (some 0)).out
          = [tripleEvent].take 0
      ∧ (Projection.QueryCache.run ⟨[]⟩ emptyQuery [tripleEvent] (some 0)).cache = ⟨[]⟩)
    ∧ (Projection.QueryCache.run
        (Projection.QueryCache.run ⟨[]⟩ emptyQuery [tripleEvent] (some 0)).cache
        emptyQuery [] none).storeQueried = true :=
  c5_query_cache emptyQuery [tripleEvent] [] 0 none (by decide)

/-- C6: after a first execution whose result was committed, a cache-hit run
for the same fingerprint replays exactly the events forwarded to the first
execution's consumer, in the same order, without querying the store and
without changing the cache. -/
theorem c6_cached_replay (q : Query) (es es2 : List Event) :
    (Projection.QueryCache.run
        (Projection.QueryCache.run ⟨[]⟩ q es none).cache q es2 none).out
        = (Projection.QueryCache.run ⟨[]⟩ q es none).out
      ∧ (Projection.QueryCache.run
          (Projection.QueryCache.run ⟨[]⟩ q es none).cache q es2 none).storeQueried
          = false
      ∧ (Projection.QueryCache.run
          (Projection.QueryCache.run ⟨[]⟩ q es none).cache q es2 none).cache
          = (Projection.QueryCache.run ⟨[]⟩ q es none).cache := by
  rw [run_empty_no_cancel]
  rw [run_hit ⟨[(q, es)]⟩ q es es2 none (by simp [Projection.QueryCache.cachedAt])]
  exact ⟨rfl, rfl, rfl⟩

/-- C7: the claim's "closed immediately" for an unset StopTimeout is false
on the code. With no StopTimeout, a cancellation at instant 0 while the
handler loop runs until instant 5 closes the stop signal at 5, not at 0 —
and if the handler loop never completes, the stop signal is never closed —
because the nil timeout channel blocks the second select forever. -/
theorem c7_counterexample :
    Project.stopCloseTime 0 0 (some 5) = some 5
      ∧ Project.stopCloseTime 0 0 (some 5) ≠ some 0
      ∧ Project.stopCloseTime 0 0 none = none := by
  refine ⟨rfl, by decide, rfl⟩

/-- C7 amended: with no StopTimeout set the stop signal is closed exactly
when the handler loop completes — the pipeline keeps draining in-flight
tickets indefinitely — and with StopTimeout d > 0 it is closed at the
earlier of the handler loop completing and d elapsing after the
cancellation (at the loop's completion instant when that precedes the
cancellation). -/
theorem c7_stop_close (d cancelT : Nat) (doneT : Option Nat) :
    Project.stopCloseTime 0 cancelT doneT = doneT
      ∧ (0 < d → Project.stopCloseTime d cancelT doneT
          = some ((doneT.map fun t => min t (cancelT + d)).getD (cancelT + d))) := by
  constructor
  · cases doneT with
    | none => simp [Project.stopCloseTime]
    | some t =>
      by_cases h : t ≤ cancelT <;> simp [Project.stopCloseTime, h]
  · intro hd
    cases doneT with
    | none => simp [Project.stopCloseTime, hd]
    | some t =>
      by_cases h : t ≤ cancelT <;> simp [Project.stopCloseTime, h, hd] <;> omega

/-- Witness for the C7 amended theorem: StopTimeout 3, cancellation at 0,
handler loop completion at 10, so the stop signal closes at 3. -/
theorem c7_stop_close_witness :
    Project.stopCloseTime 0 0 (some 10) = some 10
      ∧ (0 < 3 → Project.stopCloseTime 3 0 (some 10)
          = some (((some 10).map fun t => min t (0 + 3)).getD (0 + 3))) :=
  c7_stop_close 3 0 (some 10)

theorem not_shouldDiscard_eq (e : Event) (q : Query) :
    (!Project.shouldDiscard e q) = (hasAggregate e && Query.test q e) := by
  rw [Project.shouldDiscard, hasAggregate]
  by_cases h1 : e.aggregateName = "" <;> by_cases h2 : e.aggregateID = 0 <;>
    simp [h1, h2]

theorem shouldDiscard_of_no_triple (e : Event) (q : Query)
    (h : hasAggregate e = false) : Project.shouldDiscard e q = true := by
  have hb := not_shouldDiscard_eq e q
  rw [h, Bool.false_and] at hb
  cases hsd : Project.shouldDiscard e q
  · rw [hsd] at hb
    exact Bool.noConfusion hb
  · rfl

/-- C8: the continuous schedule emits, per received bus event, exactly one
ticket {aggregateName, aggregateID} when the event carries an aggregate
triple and passes the pre-filter query under Test, and no ticket otherwise;
in particular every event without an aggregate triple is discarded. -/
theorem c8_handle_events (events : List Event) (q : Query) (evt : Event) :
    (Project.handleEvents events q
      = (events.filter fun e => hasAggregate e && Query.test q e).map
          fun e => (⟨e.aggregateName, e.aggregateID⟩ : Project.Ticket))
    ∧ (hasAggregate evt = false →
        Project.handleEvents (evt :: events) q = Project.handleEvents events q) := by
  constructor
  · induction events with
    | nil => rfl
    | cons e rest ih =>
      rw [Project.handleEvents]
      by_cases h : Project.shouldDiscard e q
      · have hfe : (hasAggregate e && Query.test q e) = false := by
          rw [← not_shouldDiscard_eq, h]
          rfl
        rw [if_pos h, List.filter_cons_of_neg (by simp [hfe]), ih]
      · have hfe : (hasAggregate e && Query.test q e) = true := by
          rw [← not_shouldDiscard_eq]
          simp [h]
        rw [if_neg h, List.filter_cons_of_pos (by simp [hfe]), List.map_cons, ih]
  · intro h
    rw [Project.handleEvents, if_pos (shouldDiscard_of_no_triple evt q h)]

/-- Witness for C8: an event without an aggregate triple emits no ticket,
while an event with one passing the empty filter emits its ticket. -/
theorem c8_handle_events_witness :
    (Project.handleEvents [tripleEvent] emptyQuery
      = ([tripleEvent].filter fun e => hasAggregate e && Query.test emptyQuery e).map
          fun e => (⟨e.aggregateName, e.aggregateID⟩ : Project.Ticket))
    ∧ (hasAggregate plainEvent = false →
        Project.handleEvents (plainEvent :: [tripleEvent]) emptyQuery
          = Project.handleEvents [tripleEvent] emptyQuery) :=
  c8_handle_events [tripleEvent] emptyQuery plainEvent
